import Mathlib

/-!
Shallow embedding of the Powerball ticket-extraction pipeline
(mn-powerball-ticket-checker).  The definitions below are translated from
the JavaScript source: the digit/PB-marker post-processing
(`groupDigitsByY`, `reconstructTwoDigitNumbers`, `extractPlaysFromRows`,
`findPBMarkers`), the orientation-normalization geometry
(`normalizeOrientation`), and the fallback textual extractor
(`extractNumbersFromOCR`) with its ordered regex substitutions.
Pixel coordinates are integers, correlation confidences are rationals,
and the QR geometry (which uses `Math.hypot`) lives over the reals.
JavaScript's stable `Array.prototype.sort` is modelled by insertion sort,
which is stable for a total preorder.
-/

namespace Powerball

/-- A classified digit hit: `x`, `y` (center) pixel coordinates, the
classified digit and the template-matching confidence.  Mirrors the
objects pushed by `findAllDigits`. -/
structure DigitHit where
  x : Int
  y : Int
  digit : Nat
  confidence : ℚ
deriving DecidableEq, Repr, Inhabited

/-- A PB-marker candidate: top-left `x`, `y` and correlation confidence,
as pushed by `findPBMarkers`. -/
structure PBMarker where
  x : Int
  y : Int
  confidence : ℚ
deriving DecidableEq, Repr, Inhabited

/-- One extracted play: the five white-ball numbers and the powerball. -/
structure Play where
  white : List Nat
  powerball : Nat
deriving DecidableEq, Repr, Inhabited

/-! ### Sorting helpers (JS `Array.prototype.sort` with a comparator) -/

/-- `allDigits.sort((a, b) => a.y - b.y)`. -/
def sortByY (l : List DigitHit) : List DigitHit :=
  List.insertionSort (fun a b => a.y ≤ b.y) l

/-- `digitsList.sort((a, b) => a.x - b.x)`. -/
def sortByX (l : List DigitHit) : List DigitHit :=
  List.insertionSort (fun a b => a.x ≤ b.x) l

/-- `candidates.sort((a, b) => b.confidence - a.confidence)`. -/
def sortByConfDesc (l : List PBMarker) : List PBMarker :=
  List.insertionSort (fun a b => b.confidence ≤ a.confidence) l

/-- `pbMarkers.sort((a, b) => a.y - b.y)`. -/
def sortPBByY (l : List PBMarker) : List PBMarker :=
  List.insertionSort (fun a b => a.y ≤ b.y) l

/-- `whiteBalls.sort((a, b) => a - b)`. -/
def sortNatAsc (l : List Nat) : List Nat :=
  List.insertionSort (fun a b : Nat => a ≤ b) l

instance : IsTotal DigitHit (fun a b => a.y ≤ b.y) := ⟨fun a b => le_total a.y b.y⟩
instance : IsTrans DigitHit (fun a b => a.y ≤ b.y) := ⟨fun _ _ _ h h' => le_trans h h'⟩
instance : IsTotal DigitHit (fun a b => a.x ≤ b.x) := ⟨fun a b => le_total a.x b.x⟩
instance : IsTrans DigitHit (fun a b => a.x ≤ b.x) := ⟨fun _ _ _ h h' => le_trans h h'⟩
instance : IsTotal PBMarker (fun a b => b.confidence ≤ a.confidence) :=
  ⟨fun a b => (le_total b.confidence a.confidence).imp id id⟩
instance : IsTrans PBMarker (fun a b => b.confidence ≤ a.confidence) :=
  ⟨fun _ _ _ h h' => le_trans h' h⟩
instance : IsTotal PBMarker (fun a b => a.y ≤ b.y) := ⟨fun a b => le_total a.y b.y⟩
instance : IsTrans PBMarker (fun a b => a.y ≤ b.y) := ⟨fun _ _ _ h h' => le_trans h h'⟩

/-! ### Row grouping (`groupDigitsByY`) -/

/-- Loop body of `groupDigitsByY`: `first` is `currentRow[0]`, `row` holds
the rest of the current row in reverse push order. -/
def groupDigitsGo (first : DigitHit) (row : List DigitHit) :
    List DigitHit → List (List DigitHit)
  | [] => [first :: row.reverse]
  | d :: rest =>
    if (d.y - first.y).natAbs ≤ 40 then groupDigitsGo first (d :: row) rest
    else (first :: row.reverse) :: groupDigitsGo d [] rest

/-- `groupDigitsByY`: sort hits by `y`, then start a new row whenever a
hit's `y` differs from the current row's first hit's `y` by more than 40. -/
def groupDigitsByY (allDigits : List DigitHit) : List (List DigitHit) :=
  match sortByY allDigits with
  | [] => []
  | d :: rest => groupDigitsGo d [] rest

/-! ### Two-digit reconstruction (`reconstructTwoDigitNumbers`) -/

/-- Pairing loop: combine a hit with its successor when they are within
110 px in `x`, otherwise emit the single digit. -/
def pairDigits : List DigitHit → List Nat
  | [] => []
  | [d] => [d.digit]
  | d1 :: d2 :: rest =>
    if d2.x - d1.x < 110 then (d1.digit * 10 + d2.digit) :: pairDigits rest
    else d1.digit :: pairDigits (d2 :: rest)

/-- `reconstructTwoDigitNumbers`: sort by `x`, then pair adjacent digits. -/
def reconstructTwoDigitNumbers (digitsList : List DigitHit) : List Nat :=
  pairDigits (sortByX digitsList)

/-! ### Play extraction from rows (`extractPlaysFromRows`) -/

/-- Distance of a PB marker's vertical center to a row's mean `y`. -/
def pbDist (pbH : Nat) (avg : ℚ) (pb : PBMarker) : ℚ :=
  |((pb.y + (pbH / 2 : Nat) : Int) : ℚ) - avg|

/-- The `minDist` / `closestPB` loop: the first marker with strictly
minimal distance wins. -/
def closestPB (pbMarkers : List PBMarker) (pbH : Nat) (avg : ℚ) : Option PBMarker :=
  pbMarkers.foldl
    (fun best pb =>
      match best with
      | none => some pb
      | some b => if pbDist pbH avg pb < pbDist pbH avg b then some pb else some b)
    none

/-- Final validation and push in `extractPlaysFromRows`:
`whiteBalls.length === 5 && powerball !== null && powerball >= 1 &&
powerball <= 26 && whiteBalls.every(n => n >= 1 && n <= 69)`. -/
def mkValidPlay (whiteBalls : List Nat) (powerball : Option Nat) : Option Play :=
  match powerball with
  | none => none
  | some pbn =>
    if whiteBalls.length = 5 ∧ 1 ≤ pbn ∧ pbn ≤ 26 ∧
        ∀ n ∈ whiteBalls, 1 ≤ n ∧ n ≤ 69 then
      some { white := sortNatAsc whiteBalls, powerball := pbn }
    else none

/-- Body of the row loop of `extractPlaysFromRows`. -/
def processRow (pbMarkers : List PBMarker) (pbW pbH : Nat)
    (digitRow : List DigitHit) : Option Play :=
  let row := sortByX digitRow
  let avg : ℚ := ((row.map fun d => (d.y : ℚ)).sum) / (row.length : ℚ)
  match closestPB pbMarkers pbH avg with
  | none => none
  | some pb =>
    let beforePB := sortByX (row.filter fun d => d.x < pb.x)
    let afterPB := sortByX (row.filter fun d => d.x > pb.x + (pbW : Int))
    let whiteBallDigits := beforePB.drop (beforePB.length - 10)
    let powerballDigits := afterPB.take 2
    let whiteBalls := reconstructTwoDigitNumbers whiteBallDigits
    let powerball := (reconstructTwoDigitNumbers powerballDigits).head?
    mkValidPlay whiteBalls powerball

/-- `extractPlaysFromRows`: one candidate play per row, invalid rows
dropped silently. -/
def extractPlaysFromRows (digitRows : List (List DigitHit))
    (pbMarkers : List PBMarker) (pbW pbH : Nat) : List Play :=
  digitRows.filterMap (processRow pbMarkers pbW pbH)

/-! ### Fallback textual extractor (`extractNumbersFromOCR`)

JavaScript regex replacements are embedded as left-to-right scanners over
the character list.  `replace` with the `g` flag finds non-overlapping
matches left to right in the *input* text, so each scanner tracks the
previous input character (for `\b` word boundaries) and continues after
the end of each match. -/

/-- JS `\w`: `[A-Za-z0-9_]`. -/
def isWordChar (c : Char) : Bool := c.isAlpha || c.isDigit || c = '_'

/-- JS `\s` (ASCII part). -/
def isSpaceChar (c : Char) : Bool :=
  c = ' ' || c = '\t' || c = '\n' || c = '\r' || c = '\x0b' || c = '\x0c'

/-- `\b` holds before a word character iff the previous character is
absent or not a word character. -/
def noWordBefore (prev : Option Char) : Bool :=
  match prev with
  | none => true
  | some p => !isWordChar p

/-- `\b` holds after a word character iff the next character is absent or
not a word character. -/
def noWordAt (l : List Char) : Bool :=
  match l with
  | [] => true
  | c :: _ => !isWordChar c

/-- Single-character match, optionally case-insensitive (`i` flag). -/
def chMatch (ci : Bool) (target c : Char) : Bool :=
  if ci then c.toLower = target else c = target

/-- Generic replacement of a word-bounded two-character literal, covering
`\bMB\b → PB`, `\bKB\b → PB`, `\b72\b → 12`, `\b71\b → 11`,
`\bBa\b → 04` and `\bOa\b → 04`. -/
def replaceLit2 (ci : Bool) (t1 t2 : Char) (repl : List Char) :
    Option Char → List Char → List Char
  | _, [] => []
  | _, [c1] => [c1]
  | prev, c1 :: c2 :: rest2 =>
    if noWordBefore prev && chMatch ci t1 c1 && chMatch ci t2 c2 && noWordAt rest2 then
      repl ++ replaceLit2 ci t1 t2 repl (some c2) rest2
    else
      c1 :: replaceLit2 ci t1 t2 repl (some c1) (c2 :: rest2)

/-- Scanner state for `/m+\s*(\d)/gi`: `ms` holds the pending `m` run
and `sps` the pending whitespace run (both reversed).  A following digit
completes a match (replaced by `PB ` and the digit); anything else
flushes the pending text unchanged. -/
def replaceMNumGo (ms sps : List Char) : List Char → List Char
  | [] => ms.reverse ++ sps.reverse
  | c :: rest =>
    if ms.isEmpty && sps.isEmpty then
      if c.toLower = 'm' then replaceMNumGo [c] [] rest
      else c :: replaceMNumGo [] [] rest
    else if sps.isEmpty && c.toLower = 'm' then
      replaceMNumGo (c :: ms) [] rest
    else if isSpaceChar c then
      replaceMNumGo ms (c :: sps) rest
    else if c.isDigit then
      'P' :: 'B' :: ' ' :: c :: replaceMNumGo [] [] rest
    else if c.toLower = 'm' then
      ms.reverse ++ sps.reverse ++ replaceMNumGo [c] [] rest
    else
      ms.reverse ++ sps.reverse ++ c :: replaceMNumGo [] [] rest

/-- `text.replace(/m+\s*(\d)/gi, 'PB $1')`. -/
def replaceMNum (l : List Char) : List Char :=
  replaceMNumGo [] [] l

/-- `text.replace(/\bB(\d\d?)/gi, 'PB $1')`. -/
def replaceBNum : Option Char → List Char → List Char
  | _, [] => []
  | _, [c] => [c]
  | prev, [c, d1] =>
    if noWordBefore prev && c.toLower = 'b' then
      if d1.isDigit then ['P', 'B', ' ', d1]
      else c :: replaceBNum (some c) [d1]
    else c :: replaceBNum (some c) [d1]
  | prev, c :: d1 :: d2 :: rest2 =>
    if noWordBefore prev && c.toLower = 'b' then
      if d1.isDigit then
        if d2.isDigit then
          'P' :: 'B' :: ' ' :: d1 :: d2 :: replaceBNum (some d2) rest2
        else 'P' :: 'B' :: ' ' :: d1 :: replaceBNum (some d1) (d2 :: rest2)
      else c :: replaceBNum (some c) (d1 :: d2 :: rest2)
    else c :: replaceBNum (some c) (d1 :: d2 :: rest2)

/-- Scanner state for `/(\d+)B\b/gi`: `run` holds the pending digit run
(reversed).  A following `B` with a word boundary after it completes a
match, whose replacement is just the digits. -/
def replaceNumBGo (run : List Char) : List Char → List Char
  | [] => run.reverse
  | c :: rest =>
    if c.isDigit then replaceNumBGo (c :: run) rest
    else if run.isEmpty then c :: replaceNumBGo [] rest
    else if c.toLower = 'b' && noWordAt rest then
      run.reverse ++ replaceNumBGo [] rest
    else run.reverse ++ c :: replaceNumBGo [] rest

/-- `text.replace(/(\d+)B\b/gi, '$1')`. -/
def replaceNumB (l : List Char) : List Char :=
  replaceNumBGo [] l

/-- `text.replace(/(\d)(PB)/gi, '$1 $2')`. -/
def replaceDigitPB : List Char → List Char
  | [] => []
  | [d] => [d]
  | [d, p] => [d, p]
  | d :: p :: b :: rest2 =>
    if d.isDigit && p.toLower = 'p' && b.toLower = 'b' then
      d :: ' ' :: p :: b :: replaceDigitPB rest2
    else d :: replaceDigitPB (p :: b :: rest2)

/-- `text.replace(/\bO(\d)/g, '0$1')`. -/
def replaceODigit : Option Char → List Char → List Char
  | _, [] => []
  | _, [c] => [c]
  | prev, c :: d :: rest2 =>
    if noWordBefore prev && c = 'O' && d.isDigit then
      '0' :: d :: replaceODigit (some d) rest2
    else c :: replaceODigit (some c) (d :: rest2)

/-- The pair-chunking callback of the `4+`-digit split: successive
two-digit chunks joined by spaces, a trailing odd digit kept alone. -/
def chunkPairs : List Char → List Char
  | [] => []
  | [a] => [a]
  | [a, b] => [a, b]
  | a :: b :: rest => a :: b :: ' ' :: chunkPairs rest

/-- Emit one maximal digit run for the `4+`-digit splitter: runs of four
or more digits are chunked, shorter runs pass through. -/
def flushRun (r : List Char) : List Char :=
  if 4 ≤ r.length then chunkPairs r else r

/-- Scanner for `/(\d{4,})/g`: `run` holds the pending digit run
(reversed); a non-digit or the end of input flushes it. -/
def splitDigitRunsGo (run : List Char) : List Char → List Char
  | [] => flushRun run.reverse
  | c :: rest =>
    if c.isDigit then splitDigitRunsGo (c :: run) rest
    else flushRun run.reverse ++ c :: splitDigitRunsGo [] rest

/-- `text.replace(/(\d{4,})/g, ...)`: split every run of four or more
consecutive digits into two-digit chunks. -/
def splitDigitRuns (l : List Char) : List Char :=
  splitDigitRunsGo [] l

/-- The ordered substitution passes of `extractNumbersFromOCR`
(lines applied top to bottom, each on the previous result). -/
def preprocessOCR (l : List Char) : List Char :=
  splitDigitRuns
    (replaceODigit none
      (replaceLit2 false 'O' 'a' ['0', '4'] none
        (replaceLit2 false 'B' 'a' ['0', '4'] none
          (replaceLit2 false '7' '1' ['1', '1'] none
            (replaceLit2 false '7' '2' ['1', '2'] none
              (replaceDigitPB
                (replaceNumB
                  (replaceBNum none
                    (replaceMNum
                      (replaceLit2 true 'k' 'b' ['P', 'B'] none
                        (replaceLit2 true 'm' 'b' ['P', 'B'] none l)))))))))))

/-- `text.split('\n')`. -/
def splitLines : List Char → List (List Char)
  | [] => [[]]
  | c :: rest =>
    let r := splitLines rest
    if c = '\n' then [] :: r
    else (c :: r.headI) :: r.tail

/-- Scanner for `line.match(/\d+/g)`: `run` holds the pending digit run
(reversed). -/
def digitRunsGo (run : List Char) : List Char → List (List Char)
  | [] => if run.isEmpty then [] else [run.reverse]
  | c :: rest =>
    if c.isDigit then digitRunsGo (c :: run) rest
    else if run.isEmpty then digitRunsGo [] rest
    else run.reverse :: digitRunsGo [] rest

/-- `line.match(/\d+/g)`: the maximal digit runs of a line. -/
def digitRuns (l : List Char) : List (List Char) :=
  digitRunsGo [] l

/-- `parseInt` on a digit run. -/
def parseNat (l : List Char) : Nat :=
  l.foldl (fun n c => n * 10 + (c.toNat - 48)) 0

/-- First match of `/\bPB\s*(\d+)/i`, returning the parsed capture. -/
def findPBNum : Option Char → List Char → Option Nat
  | _, [] => none
  | prev, p :: rest =>
    if noWordBefore prev && p.toLower = 'p' then
      match rest with
      | b :: rest1 =>
        if b.toLower = 'b' then
          let run := (rest1.dropWhile isSpaceChar).takeWhile Char.isDigit
          if run.isEmpty then findPBNum (some p) rest
          else some (parseNat run)
        else findPBNum (some p) rest
      | [] => none
    else findPBNum (some p) rest

/-- JS `Array.prototype.indexOf`: first index of `v`, `-1` if absent. -/
def jsIndexOf (v : Nat) : List Nat → Int
  | [] => -1
  | x :: xs =>
    if x = v then 0
    else if jsIndexOf v xs = -1 then -1 else jsIndexOf v xs + 1

/-- `nums.filter(n => n >= 1 && n <= 69)` over the line's parsed
numbers. -/
def validNumsOf (line : List Char) : List Nat :=
  ((digitRuns line).map parseNat).filter fun n => decide (1 ≤ n) && decide (n ≤ 69)

/-- The `PB`-anchored powerball: the parsed capture of the first
`/\bPB\s*(\d+)/i` match when it lies in `[1, 26]`. -/
def pbAnchor (line : List Char) : Option Nat :=
  match findPBNum none line with
  | some pbNum => if 1 ≤ pbNum ∧ pbNum ≤ 26 then some pbNum else none
  | none => none

/-- `powerballIndex`: `validNums.indexOf(powerball)` for an anchored
powerball, else the index of the last valid number. -/
def powerballIndexOf (line : List Char) : Int :=
  match pbAnchor line with
  | some pbNum => jsIndexOf pbNum (validNumsOf line)
  | none => ((validNumsOf line).length : Int) - 1

/-- The line's powerball: the anchored one, else the last valid number. -/
def powerballOf (line : List Char) : Nat :=
  match pbAnchor line with
  | some pbNum => pbNum
  | none => (validNumsOf line).getLastD 0

/-- The line's white-ball candidates:
`validNums.slice(powerballIndex - 5, powerballIndex)` when at least five
numbers precede the pivot, else the first five of the last six. -/
def whiteBallsOf (line : List Char) : List Nat :=
  if 5 ≤ powerballIndexOf line then
    ((validNumsOf line).drop (powerballIndexOf line - 5).toNat).take 5
  else ((validNumsOf line).drop ((validNumsOf line).length - 6)).take 5

/-- Body of the per-line loop of `extractNumbersFromOCR`: length filter,
number extraction, powerball anchoring on the `PB` marker (or the last
valid number), white-ball slicing and validation
(`whiteBalls.length === 5 && new Set(whiteBalls).size === 5 &&
powerball >= 1 && powerball <= 26`). -/
def processLine (line : List Char) : Option Play :=
  if line.length < 10 then none
  else if (digitRuns line).length < 6 then none
  else if (validNumsOf line).length < 6 then none
  else if (whiteBallsOf line).length = 5 ∧ (whiteBallsOf line).dedup.length = 5 ∧
      1 ≤ powerballOf line ∧ powerballOf line ≤ 26 then
    some { white := sortNatAsc (whiteBallsOf line), powerball := powerballOf line }
  else none

/-- `extractNumbersFromOCR`: apply the substitutions, split into lines,
extract one candidate play per qualifying line. -/
def extractNumbersFromOCR (text : String) : List Play :=
  (splitLines (preprocessOCR text.data)).filterMap processLine

/-! ### PB-marker detection (`findPBMarkers`)

The `matchTemplate` output is modelled as the correlation matrix itself
(a list of rows of rational confidences); `findPBMarkers` embeds the
candidate collection, the non-maximum suppression and the final sort. -/

/-- `Math.abs(candidate.x - marker.x) < 30 && Math.abs(candidate.y - marker.y) < 30`. -/
def withinNMS (c m : PBMarker) : Prop :=
  (c.x - m.x).natAbs < 30 ∧ (c.y - m.y).natAbs < 30

instance (c m : PBMarker) : Decidable (withinNMS c m) := instDecidableAnd

/-- The duplicate test of the NMS loop. -/
def isDuplicate (kept : List PBMarker) (c : PBMarker) : Bool :=
  kept.any fun m => decide (withinNMS c m)

/-- The NMS loop: in order, keep a candidate iff it is not within 30 px
(in both coordinates) of an already-kept marker. -/
def nmsPass : List PBMarker → List PBMarker → List PBMarker
  | kept, [] => kept
  | kept, c :: cs =>
    if isDuplicate kept c then nmsPass kept cs else nmsPass (kept ++ [c]) cs

/-- The correlation threshold `0.75`. -/
def pbThreshold : ℚ := mkRat 3 4

/-- Row-major collection of all positions with correlation `≥ 0.75`. -/
def collectPBCandidates (result : List (List ℚ)) : List PBMarker :=
  (result.enum.map fun yr =>
    yr.2.enum.filterMap fun xc =>
      if pbThreshold ≤ xc.2 then some ⟨(xc.1 : Int), (yr.1 : Int), xc.2⟩ else none).flatten

/-- `findPBMarkers`: threshold, sort by confidence descending, NMS, sort
by `y` ascending. -/
def findPBMarkers (result : List (List ℚ)) : List PBMarker :=
  sortPBByY (nmsPass [] (sortByConfDesc (collectPBCandidates result)))

/-! ### Pipeline control flow

`extractNumbersTemplateMatching` and the dispatch in `processTicketImage`
are embedded over an oracle supplying the image-level primitives
(QR detection, the `matchTemplate` correlation matrix and the contour
digit hits), indexed by whether the plays region was located:
`findPlaysRegion` succeeds exactly when the QR was found, and when it
fails the code substitutes the full normalized image and continues. -/

structure VisionOracle where
  qrFound : Bool
  /-- `matchTemplate` result matrix on the processed region
  (argument: was the plays region located?). -/
  matchResultOf : Bool → List (List ℚ)
  /-- `findAllDigits` output on the processed region. -/
  digitsOf : Bool → List DigitHit
  pbW : Nat
  pbH : Nat

/-- `extractNumbersTemplateMatching`: plays-region location (which fails
without a QR, in which case the full normalized image is used), PB-marker
detection, digit detection, row grouping, play extraction. -/
def extractNumbersTemplateMatchingM (o : VisionOracle) : List Play :=
  let regionFound := o.qrFound
  let pbMarkers := findPBMarkers (o.matchResultOf regionFound)
  let allDigits := o.digitsOf regionFound
  let digitRows := groupDigitsByY allDigits
  extractPlaysFromRows digitRows pbMarkers o.pbW o.pbH

/-- The dispatch of `processTicketImage`: run template matching when
templates are loaded; fall back to the OCR extractor exactly when the
primary result is missing or empty. -/
def processTicketM (templatesLoaded : Bool) (o : VisionOracle) (ocrText : String) :
    List Play :=
  let primary := if templatesLoaded then extractNumbersTemplateMatchingM o else []
  if primary.isEmpty then extractNumbersFromOCR ocrText else primary

/-- A concrete no-QR scene: QR detection fails, yet the full normalized
image still shows ten white-side digit hits reading `07 14 22 45 61`, a
PB marker at `x = 50` (the single above-threshold correlation) and the
powerball digits `09` to its right. -/
def c2Oracle : VisionOracle where
  qrFound := false
  matchResultOf := fun _ => [List.replicate 50 0 ++ [1]]
  digitsOf := fun _ =>
    [⟨0, 0, 0, 1⟩, ⟨5, 0, 7, 1⟩, ⟨10, 0, 1, 1⟩, ⟨15, 0, 4, 1⟩, ⟨20, 0, 2, 1⟩,
     ⟨25, 0, 2, 1⟩, ⟨30, 0, 4, 1⟩, ⟨35, 0, 5, 1⟩, ⟨40, 0, 6, 1⟩, ⟨45, 0, 1, 1⟩,
     ⟨150, 0, 0, 1⟩, ⟨160, 0, 9, 1⟩]
  pbW := 90
  pbH := 88

/-! ### Orientation normalization geometry (`normalizeOrientation`)

QR corner coordinates are rationals (every JS float is rational);
`Math.hypot` produces a real edge length. -/

instance : IsTotal (ℚ × ℚ) (fun a b => a.2 ≤ b.2) := ⟨fun a b => le_total a.2 b.2⟩
instance : IsTrans (ℚ × ℚ) (fun a b => a.2 ≤ b.2) := ⟨fun _ _ _ h h' => le_trans h h'⟩
instance : IsTotal (ℚ × ℚ) (fun a b => a.1 ≤ b.1) := ⟨fun a b => le_total a.1 b.1⟩
instance : IsTrans (ℚ × ℚ) (fun a b => a.1 ≤ b.1) := ⟨fun _ _ _ h h' => le_trans h h'⟩

/-- Corner ordering: sort by `y`, split into top and bottom pairs, sort
each by `x`, yield `[TL, TR, BR, BL]`. -/
def orderQuad (pts : List (ℚ × ℚ)) : List (ℚ × ℚ) :=
  let sorted := List.insertionSort (fun a b : ℚ × ℚ => a.2 ≤ b.2) pts
  let top := List.insertionSort (fun a b : ℚ × ℚ => a.1 ≤ b.1) (sorted.take 2)
  let bottom := List.insertionSort (fun a b : ℚ × ℚ => a.1 ≤ b.1) (sorted.drop 2)
  [top.getD 0 (0, 0), top.getD 1 (0, 0), bottom.getD 1 (0, 0), bottom.getD 0 (0, 0)]

/-- `Math.hypot` edge length between two corners. -/
noncomputable def elen (p q : ℚ × ℚ) : ℝ :=
  Real.sqrt (((q.1 - p.1 : ℚ) : ℝ) ^ 2 + ((q.2 - p.2 : ℚ) : ℝ) ^ 2)

/-- The destination-canvas metadata computed by `normalizeOrientation`
when a QR code is found. -/
structure NormMeta where
  qrSize : ℤ
  ticketWidth : ℤ
  ticketHeight : ℤ
  qrDestX : ℤ
  qrDestY : ℤ
deriving DecidableEq, Repr

/-- `normalizeOrientation`, QR branch: `qrSize` is the rounded mean of
the top edge (`ordered[0]→ordered[1]`) and the left edge
(`ordered[0]→ordered[3]`); canvas side `round(qrSize·10.8)`; margin
`round(qrSize·0.2)`; destination corner at
`(W − qrSize − margin, H − qrSize − margin)`. -/
noncomputable def normalizeOrientationQR (pts : List (ℚ × ℚ)) : NormMeta :=
  let ordered := orderQuad pts
  let p0 := ordered.getD 0 (0, 0)
  let p1 := ordered.getD 1 (0, 0)
  let p3 := ordered.getD 3 (0, 0)
  let qrWidth := elen p0 p1
  let qrHeight := elen p0 p3
  let qrSize : ℤ := round ((qrWidth + qrHeight) / 2)
  let ticketWidth : ℤ := round ((qrSize : ℝ) * 10.8)
  let ticketHeight : ℤ := round ((qrSize : ℝ) * 10.8)
  let qrMargin : ℤ := round ((qrSize : ℝ) * 0.2)
  { qrSize := qrSize
    ticketWidth := ticketWidth
    ticketHeight := ticketHeight
    qrDestX := ticketWidth - qrSize - qrMargin
    qrDestY := ticketHeight - qrSize - qrMargin }

/-- Modelled from the spec claim (for comparison with the source): the QR
edge length as the rounded mean of all four edges — the two horizontal
edges (top `ordered[0]→ordered[1]`, bottom `ordered[3]→ordered[2]`) and
the two vertical edges (left `ordered[0]→ordered[3]`, right
`ordered[1]→ordered[2]`) of the ordered quadrilateral. -/
noncomputable def qrSizeSpecFourEdges (pts : List (ℚ × ℚ)) : ℤ :=
  let ordered := orderQuad pts
  let p0 := ordered.getD 0 (0, 0)
  let p1 := ordered.getD 1 (0, 0)
  let p2 := ordered.getD 2 (0, 0)
  let p3 := ordered.getD 3 (0, 0)
  round ((elen p0 p1 + elen p3 p2 + elen p0 p3 + elen p1 p2) / 4)

/-! ## Verified properties -/

theorem nodup_of_dedup_length {α : Type _} [DecidableEq α] :
    ∀ l : List α, l.dedup.length = l.length → l.Nodup := by
  intro l
  induction l with
  | nil => intro _; exact List.nodup_nil
  | cons a xs ih =>
    intro h
    by_cases ha : a ∈ xs
    · exfalso
      rw [List.dedup_cons_of_mem ha] at h
      have h2 := (List.dedup_sublist xs).length_le
      simp only [List.length_cons] at h
      omega
    · rw [List.dedup_cons_of_not_mem ha] at h
      simp only [List.length_cons] at h
      exact List.nodup_cons.mpr ⟨ha, ih (by omega)⟩

theorem mem_of_mem_take_drop {α : Type _} {a : α} {k j : Nat} {l : List α}
    (h : a ∈ (l.drop k).take j) : a ∈ l :=
  List.drop_subset _ _ (List.take_subset _ _ h)

/-- Any play accepted by the final validation of `extractPlaysFromRows`
has five white balls in `[1, 69]`, a powerball in `[1, 26]`, and a white
list sorted ascending. -/
theorem mkValidPlay_props {w : List Nat} {pb : Option Nat} {p : Play}
    (h : mkValidPlay w pb = some p) :
    p.white.length = 5 ∧ (∀ n ∈ p.white, 1 ≤ n ∧ n ≤ 69) ∧
      1 ≤ p.powerball ∧ p.powerball ≤ 26 ∧ List.Sorted (· ≤ ·) p.white := by
  unfold mkValidPlay at h
  split at h
  · exact absurd h (by simp)
  · split at h
    · rename_i hcond
      obtain ⟨h5, h1, h2, h3⟩ := hcond
      cases h
      refine ⟨?_, ?_, h1, h2, ?_⟩
      · simpa [sortNatAsc, (List.perm_insertionSort _ w).length_eq] using h5
      · intro n hn
        exact h3 n ((List.perm_insertionSort _ w).mem_iff.mp hn)
      · exact List.sorted_insertionSort _ w
    · exact absurd h (by simp)

/-- A row that yields a play did so through `mkValidPlay`. -/
theorem processRow_some {pbMarkers : List PBMarker} {pbW pbH : Nat}
    {digitRow : List DigitHit} {p : Play}
    (h : processRow pbMarkers pbW pbH digitRow = some p) :
    ∃ w pbn, mkValidPlay w pbn = some p := by
  simp only [processRow] at h
  split at h
  · exact absurd h (by simp)
  · exact ⟨_, _, h⟩

/-- Any play emitted by the per-line loop of the fallback extractor has
five pairwise-distinct white balls in `[1, 69]`, a powerball in
`[1, 26]`, and a sorted white list. -/
theorem processLine_props {line : List Char} {p : Play}
    (h : processLine line = some p) :
    p.white.length = 5 ∧ p.white.Nodup ∧ (∀ n ∈ p.white, 1 ≤ n ∧ n ≤ 69) ∧
      1 ≤ p.powerball ∧ p.powerball ≤ 26 ∧ List.Sorted (· ≤ ·) p.white := by
  unfold processLine at h
  split at h
  · exact absurd h (by simp)
  split at h
  · exact absurd h (by simp)
  split at h
  · exact absurd h (by simp)
  split at h
  · rename_i hcond
    obtain ⟨h5, hded, hp1, hp2⟩ := hcond
    cases h
    refine ⟨?_, ?_, ?_, hp1, hp2, ?_⟩
    · simpa [sortNatAsc, (List.perm_insertionSort _ _).length_eq] using h5
    · refine (List.perm_insertionSort _ _).nodup_iff.mpr ?_
      exact nodup_of_dedup_length _ (by omega)
    · intro n hn
      have hn2 := (List.perm_insertionSort _ _).mem_iff.mp hn
      have hn3 : n ∈ validNumsOf line := by
        unfold whiteBallsOf at hn2
        split at hn2
        · exact mem_of_mem_take_drop hn2
        · exact mem_of_mem_take_drop hn2
      have := List.of_mem_filter hn3
      simp only [Bool.and_eq_true, decide_eq_true_eq] at this
      exact this
    · exact List.sorted_insertionSort _ _
  · exact absurd h (by simp)

/-- Claim C1, amended: every play emitted by the template-matching path
has exactly five white balls, each in `[1, 69]`, a powerball in
`[1, 26]`, and a white list sorted ascending — but its validation does
not require distinctness; plays emitted by the fallback textual
extractor additionally have pairwise-distinct white balls. -/
theorem c1_amended :
    (∀ (digitRows : List (List DigitHit)) (pbMarkers : List PBMarker) (pbW pbH : Nat),
      ∀ p ∈ extractPlaysFromRows digitRows pbMarkers pbW pbH,
        p.white.length = 5 ∧ (∀ n ∈ p.white, 1 ≤ n ∧ n ≤ 69) ∧
          1 ≤ p.powerball ∧ p.powerball ≤ 26 ∧ List.Sorted (· ≤ ·) p.white) ∧
    (∀ text : String, ∀ p ∈ extractNumbersFromOCR text,
      p.white.length = 5 ∧ p.white.Nodup ∧ (∀ n ∈ p.white, 1 ≤ n ∧ n ≤ 69) ∧
        1 ≤ p.powerball ∧ p.powerball ≤ 26 ∧ List.Sorted (· ≤ ·) p.white) := by
  constructor
  · intro digitRows pbMarkers pbW pbH p hp
    obtain ⟨row, _, hrow⟩ := List.mem_filterMap.mp hp
    obtain ⟨w, pbn, hmk⟩ := processRow_some hrow
    exact mkValidPlay_props hmk
  · intro t p hp
    simp only [extractNumbersFromOCR] at hp
    obtain ⟨line, _, hline⟩ := List.mem_filterMap.mp hp
    exact processLine_props hline

/-- Claim C1, witness: the amended theorem applied to a concrete
template-path play (with a repeated white ball) and to a concrete
fallback play (with distinct white balls). -/
theorem c1_witness :
    (∀ n ∈ ({ white := [11, 11, 22, 33, 44], powerball := 9 } : Play).white,
      1 ≤ n ∧ n ≤ 69) ∧
    ({ white := [7, 14, 22, 45, 61], powerball := 9 } : Play).white.Nodup := by
  constructor
  · exact (c1_amended.1
      [[⟨0, 0, 1, 1⟩, ⟨10, 0, 1, 1⟩, ⟨120, 0, 1, 1⟩, ⟨130, 0, 1, 1⟩,
        ⟨240, 0, 2, 1⟩, ⟨250, 0, 2, 1⟩, ⟨360, 0, 3, 1⟩, ⟨370, 0, 3, 1⟩,
        ⟨480, 0, 4, 1⟩, ⟨490, 0, 4, 1⟩, ⟨700, 0, 0, 1⟩, ⟨710, 0, 9, 1⟩]]
      [⟨600, 0, 1⟩] 90 88 _ (by decide)).2.1
  · exact (c1_amended.2 "07 14 22 45 61 MB 09" _ (by decide)).2.1

/-- Claim C3, amended: when a line yields a play through a `PB N` anchor
(`N ∈ [1, 26]`) and at least five valid numbers precede the *first
occurrence of the value `N`* in the valid-numbers list, the white balls
are the five valid numbers immediately preceding that first occurrence —
the pivot is found by value (`indexOf`), not by the position of the
anchored powerball token. -/
theorem c3_amended (line : List Char) (pbNum : Nat) (p : Play)
    (hpb : pbAnchor line = some pbNum)
    (hidx : 5 ≤ jsIndexOf pbNum (validNumsOf line))
    (hsome : processLine line = some p) :
    p.powerball = pbNum ∧
    p.white = sortNatAsc (((validNumsOf line).drop
      (jsIndexOf pbNum (validNumsOf line) - 5).toNat).take 5) := by
  have hPI : powerballIndexOf line = jsIndexOf pbNum (validNumsOf line) := by
    unfold powerballIndexOf
    rw [hpb]
  have hPB : powerballOf line = pbNum := by
    unfold powerballOf
    rw [hpb]
  have hW : whiteBallsOf line = ((validNumsOf line).drop
      (jsIndexOf pbNum (validNumsOf line) - 5).toNat).take 5 := by
    unfold whiteBallsOf
    rw [hPI, if_pos hidx]
  unfold processLine at hsome
  split at hsome
  · exact absurd hsome (by simp)
  split at hsome
  · exact absurd hsome (by simp)
  split at hsome
  · exact absurd hsome (by simp)
  split at hsome
  · cases hsome
    exact ⟨hPB, by rw [hW]⟩
  · exact absurd hsome (by simp)

/-- Claim C3, witness: the amended theorem applied to the line
`"01 02 03 04 05 06 PB 06"`. -/
theorem c3_witness :
    ({ white := [1, 2, 3, 4, 5], powerball := 6 } : Play).powerball = 6 ∧
    ({ white := [1, 2, 3, 4, 5], powerball := 6 } : Play).white =
      sortNatAsc (((validNumsOf "01 02 03 04 05 06 PB 06".data).drop
        (jsIndexOf 6 (validNumsOf "01 02 03 04 05 06 PB 06".data) - 5).toNat).take 5) :=
  c3_amended _ 6 _ (by decide) (by decide) (by decide)

/-- A list of `2·k` digit hits whose successive `x` gaps are all under
110 px pairs into exactly `k` two-digit numbers. -/
theorem pairDigits_length_of_chain :
    ∀ (k : Nat) (s : List DigitHit), s.length = 2 * k →
      List.Chain' (fun a b : DigitHit => b.x - a.x < 110) s →
      (pairDigits s).length = k := by
  intro k
  induction k with
  | zero =>
    intro s hs _
    have := List.length_eq_zero.mp hs
    subst this
    rfl
  | succ n ih =>
    intro s hs hc
    rcases s with _ | ⟨d1, _ | ⟨d2, rest⟩⟩
    · simp at hs
    · simp at hs
      omega
    · have hgap : d2.x - d1.x < 110 := (List.chain'_cons.mp hc).1
      have hrest := ((List.chain'_cons.mp hc).2).tail
      simp only [List.tail_cons] at hrest
      have hlen : rest.length = 2 * n := by
        simp only [List.length_cons] at hs
        omega
      simp only [pairDigits, if_pos hgap, List.length_cons]
      rw [ih rest hlen hrest]

/-- Claim C4, amended: when the ten white-side digits, taken in `x`
order, have successive gaps under 110 px, the reconstruction produces
exactly five two-digit numbers.  (With larger gaps single digits are
emitted — up to ten numbers — and validation then drops the row; and a
row with fewer than ten white-side digits can still emit a play when
pairing yields five valid numbers, as the counterexample shows.) -/
theorem c4_amended (l : List DigitHit) (h1 : l.length = 10)
    (h2 : List.Chain' (fun a b : DigitHit => b.x - a.x < 110) (sortByX l)) :
    (reconstructTwoDigitNumbers l).length = 5 := by
  unfold reconstructTwoDigitNumbers
  refine pairDigits_length_of_chain 5 _ ?_ h2
  unfold sortByX
  rw [(List.perm_insertionSort _ l).length_eq, h1]

/-- Claim C4, witness: ten closely spaced digits reconstruct to exactly
five numbers. -/
theorem c4_witness :
    (reconstructTwoDigitNumbers
      [⟨0, 0, 0, 1⟩, ⟨10, 0, 7, 1⟩, ⟨100, 0, 1, 1⟩, ⟨110, 0, 4, 1⟩,
       ⟨200, 0, 2, 1⟩, ⟨210, 0, 2, 1⟩, ⟨300, 0, 4, 1⟩, ⟨310, 0, 5, 1⟩,
       ⟨400, 0, 6, 1⟩, ⟨410, 0, 1, 1⟩]).length = 5 :=
  c4_amended _ (by decide) (by
    rw [show sortByX
        [⟨0, 0, 0, 1⟩, ⟨10, 0, 7, 1⟩, ⟨100, 0, 1, 1⟩, ⟨110, 0, 4, 1⟩,
         ⟨200, 0, 2, 1⟩, ⟨210, 0, 2, 1⟩, ⟨300, 0, 4, 1⟩, ⟨310, 0, 5, 1⟩,
         ⟨400, 0, 6, 1⟩, ⟨410, 0, 1, 1⟩] =
        [⟨0, 0, 0, 1⟩, ⟨10, 0, 7, 1⟩, ⟨100, 0, 1, 1⟩, ⟨110, 0, 4, 1⟩,
         ⟨200, 0, 2, 1⟩, ⟨210, 0, 2, 1⟩, ⟨300, 0, 4, 1⟩, ⟨310, 0, 5, 1⟩,
         ⟨400, 0, 6, 1⟩, ⟨410, 0, 1, 1⟩] from by decide]
    simp only [List.chain'_cons, List.chain'_singleton]
    decide)

/-- Claim C2, amended: when no QR is found the plays-region locator
fails, but the primary path continues digit extraction over the full
normalized image (and may produce plays); the fallback textual extractor
runs exactly when the primary path yields zero plays — including when
templates are unavailable. -/
theorem c2_amended :
    (∀ o : VisionOracle, o.qrFound = false →
      extractNumbersTemplateMatchingM o =
        extractPlaysFromRows (groupDigitsByY (o.digitsOf false))
          (findPBMarkers (o.matchResultOf false)) o.pbW o.pbH) ∧
    (∀ (o : VisionOracle) (t : String), extractNumbersTemplateMatchingM o ≠ [] →
      processTicketM true o t = extractNumbersTemplateMatchingM o) ∧
    (∀ (o : VisionOracle) (t : String), extractNumbersTemplateMatchingM o = [] →
      processTicketM true o t = extractNumbersFromOCR t) ∧
    (∀ (o : VisionOracle) (t : String),
      processTicketM false o t = extractNumbersFromOCR t) := by
  refine ⟨?_, ?_, ?_, ?_⟩
  · intro o h
    simp only [extractNumbersTemplateMatchingM, h]
  · intro o t h
    simp [processTicketM, List.isEmpty_iff, h]
  · intro o t h
    simp [processTicketM, List.isEmpty_iff, h]
  · intro o t
    simp [processTicketM]

/-- Claim C2, witness: the dispatcher keeps the primary result of the
concrete no-QR scene instead of invoking the fallback. -/
theorem c2_witness :
    processTicketM true c2Oracle "" = extractNumbersTemplateMatchingM c2Oracle :=
  c2_amended.2.1 c2Oracle "" (by decide)

/-- Evaluate `Math.hypot` on a concrete edge whose length is exact. -/
theorem elen_eval {p q : ℚ × ℚ} {r : ℝ} (hr : 0 ≤ r)
    (h : ((q.1 - p.1 : ℚ) : ℝ) ^ 2 + ((q.2 - p.2 : ℚ) : ℝ) ^ 2 = r ^ 2) :
    elen p q = r := by
  unfold elen
  rw [h, Real.sqrt_sq hr]

/-- Claim C6, counterexample: for the corner quadrilateral
`TL = (0,0)`, `TR = (16,0)`, `BR = (10,8)`, `BL = (0,8)` (edge lengths:
top 16, right 10, bottom 10, left 8) the code computes
`s = round((16 + 8) / 2) = 12` from the top and left edges only, while
the claimed mean of the two horizontal and two vertical edges is
`round((16 + 10 + 10 + 8) / 4) = 11`. -/
theorem c6_counterexample :
    (normalizeOrientationQR [(10, 8), (0, 0), (0, 8), (16, 0)]).qrSize = 12 ∧
    qrSizeSpecFourEdges [(10, 8), (0, 0), (0, 8), (16, 0)] = 11 ∧
    (12 : ℤ) ≠ 11 := by
  have hq : orderQuad [((10 : ℚ), (8 : ℚ)), (0, 0), (0, 8), (16, 0)] =
      [(0, 0), (16, 0), (10, 8), (0, 8)] := by decide
  have e01 : elen ((0 : ℚ), (0 : ℚ)) (16, 0) = 16 :=
    elen_eval (by norm_num) (by push_cast; norm_num)
  have e03 : elen ((0 : ℚ), (0 : ℚ)) (0, 8) = 8 :=
    elen_eval (by norm_num) (by push_cast; norm_num)
  have e12 : elen ((16 : ℚ), (0 : ℚ)) (10, 8) = 10 :=
    elen_eval (by norm_num) (by push_cast; norm_num)
  have e32 : elen ((0 : ℚ), (8 : ℚ)) (10, 8) = 10 :=
    elen_eval (by norm_num) (by push_cast; norm_num)
  refine ⟨?_, ?_, by decide⟩
  · simp only [normalizeOrientationQR, hq, List.getD_cons_zero, List.getD_cons_succ]
    rw [e01, e03]
    rw [show ((16 : ℝ) + 8) / 2 = ((12 : ℤ) : ℝ) by norm_num, round_intCast]
  · simp only [qrSizeSpecFourEdges, hq, List.getD_cons_zero, List.getD_cons_succ]
    rw [e01, e03, e12, e32]
    rw [show ((16 : ℝ) + 10 + 8 + 10) / 4 = ((11 : ℤ) : ℝ) by norm_num, round_intCast]

/-- Claim C6, amended: the normalizer's QR edge length is the rounded
mean of the *top* and *left* edges of the ordered quadrilateral (not of
all four edges); the canvas is square with side `round(10.8·s)` and the
QR's destination top-left corner is at
`(W − s − round(0.2·s), H − s − round(0.2·s))`. -/
theorem c6_amended (pts : List (ℚ × ℚ)) :
    (normalizeOrientationQR pts).qrSize =
      round ((elen ((orderQuad pts).getD 0 (0, 0)) ((orderQuad pts).getD 1 (0, 0)) +
        elen ((orderQuad pts).getD 0 (0, 0)) ((orderQuad pts).getD 3 (0, 0))) / 2) ∧
    (normalizeOrientationQR pts).ticketWidth =
      round (((normalizeOrientationQR pts).qrSize : ℝ) * 10.8) ∧
    (normalizeOrientationQR pts).ticketHeight =
      (normalizeOrientationQR pts).ticketWidth ∧
    (normalizeOrientationQR pts).qrDestX =
      (normalizeOrientationQR pts).ticketWidth - (normalizeOrientationQR pts).qrSize -
        round (((normalizeOrientationQR pts).qrSize : ℝ) * 0.2) ∧
    (normalizeOrientationQR pts).qrDestY = (normalizeOrientationQR pts).qrDestX :=
  ⟨rfl, rfl, rfl, rfl, rfl⟩

/-! ### Row-grouping lemmas (claims C5 and C10) -/

/-- The emitted rows of the grouping loop concatenate back to its input. -/
theorem groupDigitsGo_flatten :
    ∀ (l : List DigitHit) (first : DigitHit) (row : List DigitHit),
      (groupDigitsGo first row l).flatten = first :: row.reverse ++ l := by
  intro l
  induction l with
  | nil =>
    intro first row
    simp [groupDigitsGo]
  | cons d rest ih =>
    intro first row
    simp only [groupDigitsGo]
    split
    · rw [ih]
      simp
    · simp only [List.flatten_cons]
      rw [ih]
      simp

/-- Elements within 40 px above the row's first hit are pairwise within
40 px of each other. -/
theorem row_close_of_bounds {first : DigitHit} {row : List DigitHit}
    (hrow : ∀ r ∈ row, first.y ≤ r.y ∧ r.y - first.y ≤ 40) :
    ∀ a ∈ first :: row.reverse, ∀ b ∈ first :: row.reverse,
      (a.y - b.y).natAbs ≤ 40 := by
  have bound : ∀ c ∈ first :: row.reverse, first.y ≤ c.y ∧ c.y - first.y ≤ 40 := by
    intro c hc
    rcases List.mem_cons.mp hc with h | h
    · subst h
      exact ⟨le_refl _, by omega⟩
    · exact hrow c (List.mem_reverse.mp h)
  intro a ha b hb
  have h1 := bound a ha
  have h2 := bound b hb
  omega

/-- Any two hits of any row emitted by the grouping loop lie within
40 px of each other in `y`, provided the remaining input is sorted and
the current row is within 40 px of its first hit. -/
theorem groupDigitsGo_rows_close :
    ∀ (l : List DigitHit) (first : DigitHit) (row : List DigitHit),
      List.Pairwise (fun a b : DigitHit => a.y ≤ b.y) (first :: row.reverse ++ l) →
      (∀ r ∈ row, first.y ≤ r.y ∧ r.y - first.y ≤ 40) →
      ∀ s ∈ groupDigitsGo first row l, ∀ a ∈ s, ∀ b ∈ s, (a.y - b.y).natAbs ≤ 40 := by
  intro l
  induction l with
  | nil =>
    intro first row _ hrow s hs
    simp only [groupDigitsGo, List.mem_singleton] at hs
    subst hs
    exact row_close_of_bounds hrow
  | cons d rest ih =>
    intro first row hPW hrow s hs
    have hfd : first.y ≤ d.y :=
      (List.pairwise_cons.mp hPW).1 d
        (List.mem_append.mpr (Or.inr (List.mem_cons_self d rest)))
    simp only [groupDigitsGo] at hs
    split at hs
    · rename_i hle
      refine ih first (d :: row) ?_ ?_ s hs
      · simpa [List.append_assoc] using hPW
      · intro r hr
        rcases List.mem_cons.mp hr with h | h
        · subst h
          exact ⟨hfd, by omega⟩
        · exact hrow r h
    · rcases List.mem_cons.mp hs with h | h
      · subst h
        exact row_close_of_bounds hrow
      · refine ih d [] ?_ (by simp) s h
        have hsub : List.Sublist (d :: rest) (first :: (row.reverse ++ d :: rest)) :=
          (List.sublist_append_right _ _).cons first
        simpa using hPW.sublist hsub

/-- Claim C5: within every row produced by the row grouper, any two
hits' `y` coordinates differ by at most 40 pixels. -/
theorem c5_rows_within_40 (hits : List DigitHit) :
    ∀ row ∈ groupDigitsByY hits, ∀ a ∈ row, ∀ b ∈ row,
      (a.y - b.y).natAbs ≤ 40 := by
  intro row hrow
  unfold groupDigitsByY at hrow
  split at hrow
  · exact absurd hrow (by simp)
  · rename_i d rest heq
    have hsorted : List.Pairwise (fun a b : DigitHit => a.y ≤ b.y) (d :: rest) := by
      have hs := List.sorted_insertionSort (fun a b : DigitHit => a.y ≤ b.y) hits
      unfold sortByY at heq
      rw [heq] at hs
      exact hs
    exact groupDigitsGo_rows_close rest d [] (by simpa using hsorted) (by simp)
      row hrow

/-- Claim C5, witness: the grouper applied to three concrete hits whose
sorted `y` values are `0, 30, 100`; the hits at `y = 0` and `y = 30`
land in one row and are within 40 px. -/
theorem c5_witness :
    ((⟨5, 0, 2, 1⟩ : DigitHit).y - (⟨7, 30, 3, 1⟩ : DigitHit).y).natAbs ≤ 40 :=
  c5_rows_within_40 [⟨0, 100, 1, 1⟩, ⟨5, 0, 2, 1⟩, ⟨7, 30, 3, 1⟩]
    [⟨5, 0, 2, 1⟩, ⟨7, 30, 3, 1⟩] (by decide) _ (by decide) _ (by decide)

/-- The rows of `groupDigitsByY` concatenate to the `y`-sorted input. -/
theorem groupDigitsByY_flatten (hits : List DigitHit) :
    (groupDigitsByY hits).flatten = sortByY hits := by
  unfold groupDigitsByY
  split
  · rename_i heq
    simp [heq]
  · rename_i d rest heq
    rw [groupDigitsGo_flatten, heq]
    simp

/-- No emitted row is empty. -/
theorem groupDigitsGo_ne_nil :
    ∀ (l : List DigitHit) (first : DigitHit) (row : List DigitHit),
      ∀ s ∈ groupDigitsGo first row l, s ≠ [] := by
  intro l
  induction l with
  | nil =>
    intro first row s hs
    simp only [groupDigitsGo, List.mem_singleton] at hs
    subst hs
    simp
  | cons d rest ih =>
    intro first row s hs
    simp only [groupDigitsGo] at hs
    split at hs
    · exact ih _ _ s hs
    · rcases List.mem_cons.mp hs with h | h
      · subst h
        simp
      · exact ih _ _ s h

theorem mem_of_mem_head? {α : Type _} {a : α} {s : List α} (h : a ∈ s.head?) :
    a ∈ s := by
  cases s with
  | nil => simp at h
  | cons x xs =>
    simp only [List.head?_cons, Option.mem_def, Option.some.injEq] at h
    subst h
    exact List.mem_cons_self _ _

/-- Rows are emitted in strictly increasing order of their first hit's
`y`: a row break requires a jump of more than 40 px. -/
theorem groupDigitsGo_heads :
    ∀ (l : List DigitHit) (first : DigitHit) (row : List DigitHit),
      List.Pairwise (fun a b : DigitHit => a.y ≤ b.y) (first :: row.reverse ++ l) →
      List.Pairwise (fun r s => ∀ a ∈ r.head?, ∀ b ∈ s.head?, a.y < b.y)
        (groupDigitsGo first row l) := by
  intro l
  induction l with
  | nil =>
    intro first row _
    simp [groupDigitsGo]
  | cons d rest ih =>
    intro first row hPW
    have hfd : first.y ≤ d.y :=
      (List.pairwise_cons.mp hPW).1 d
        (List.mem_append.mpr (Or.inr (List.mem_cons_self d rest)))
    have hdrest : List.Pairwise (fun a b : DigitHit => a.y ≤ b.y) (d :: rest) := by
      have hsub : List.Sublist (d :: rest) (first :: (row.reverse ++ d :: rest)) :=
        (List.sublist_append_right _ _).cons first
      exact hPW.sublist hsub
    simp only [groupDigitsGo]
    split
    · exact ih first (d :: row) (by simpa [List.append_assoc] using hPW)
    · rename_i hgt
      refine List.pairwise_cons.mpr ⟨?_, ih d [] (by simpa using hdrest)⟩
      intro s hs a ha b hb
      have ha2 : first = a := by simpa using ha
      subst ha2
      have hbmem : b ∈ (groupDigitsGo d [] rest).flatten :=
        List.mem_flatten.mpr ⟨s, hs, mem_of_mem_head? hb⟩
      rw [groupDigitsGo_flatten] at hbmem
      simp only [List.reverse_nil, List.nil_append] at hbmem
      have hbd : d.y ≤ b.y := by
        rcases List.mem_cons.mp hbmem with h | h
        · subst h
          exact le_refl _
        · exact (List.pairwise_cons.mp hdrest).1 b h
      omega

/-- Claim C10: the row grouper partitions the digit hits without loss or
duplication — the concatenation of the rows is exactly the `y`-sorted
input (hence a permutation of the input, sorted ascending by `y`), every
row is nonempty, and rows appear in strictly ascending order of their
first hit's `y`. -/
theorem c10_partition (hits : List DigitHit) :
    (groupDigitsByY hits).flatten = sortByY hits ∧
    ((groupDigitsByY hits).flatten).Perm hits ∧
    List.Sorted (fun a b : DigitHit => a.y ≤ b.y) (groupDigitsByY hits).flatten ∧
    (∀ row ∈ groupDigitsByY hits, row ≠ []) ∧
    List.Pairwise (fun r s => ∀ a ∈ r.head?, ∀ b ∈ s.head?, a.y < b.y)
      (groupDigitsByY hits) := by
  have hf := groupDigitsByY_flatten hits
  refine ⟨hf, ?_, ?_, ?_, ?_⟩
  · rw [hf]
    exact List.perm_insertionSort _ hits
  · rw [hf]
    exact List.sorted_insertionSort _ hits
  · intro row hrow
    unfold groupDigitsByY at hrow
    split at hrow
    · exact absurd hrow (by simp)
    · exact groupDigitsGo_ne_nil _ _ _ row hrow
  · unfold groupDigitsByY
    split
    · exact List.Pairwise.nil
    · rename_i d rest heq
      have hsorted : List.Pairwise (fun a b : DigitHit => a.y ≤ b.y) (d :: rest) := by
        have hs := List.sorted_insertionSort (fun a b : DigitHit => a.y ≤ b.y) hits
        unfold sortByY at heq
        rw [heq] at hs
        exact hs
      exact groupDigitsGo_heads rest d [] (by simpa using hsorted)

/-- Claim C10, witness: on three concrete hits the first row of the
grouper is nonempty. -/
theorem c10_witness :
    ([⟨5, 0, 2, 1⟩, ⟨7, 30, 3, 1⟩] : List DigitHit) ≠ [] :=
  (c10_partition [⟨0, 100, 1, 1⟩, ⟨5, 0, 2, 1⟩, ⟨7, 30, 3, 1⟩]).2.2.2.1
    [⟨5, 0, 2, 1⟩, ⟨7, 30, 3, 1⟩] (by decide)

/-! ### PB-marker detection lemmas (claim C7) -/

theorem withinNMS_symm {a b : PBMarker} (h : withinNMS a b) : withinNMS b a := by
  unfold withinNMS at h ⊢
  omega

theorem nmsPass_kept_subset :
    ∀ (cs kept : List PBMarker), kept ⊆ nmsPass kept cs := by
  intro cs
  induction cs with
  | nil =>
    intro kept
    simp [nmsPass]
  | cons c cs ih =>
    intro kept
    simp only [nmsPass]
    split
    · exact ih kept
    · exact fun x hx => ih (kept ++ [c]) (List.mem_append.mpr (Or.inl hx))

theorem nmsPass_mem :
    ∀ (cs kept : List PBMarker) (x : PBMarker),
      x ∈ nmsPass kept cs → x ∈ kept ∨ x ∈ cs := by
  intro cs
  induction cs with
  | nil =>
    intro kept x hx
    simp only [nmsPass] at hx
    exact Or.inl hx
  | cons c cs ih =>
    intro kept x hx
    simp only [nmsPass] at hx
    split at hx
    · rcases ih kept x hx with h | h
      · exact Or.inl h
      · exact Or.inr (List.mem_cons_of_mem _ h)
    · rcases ih (kept ++ [c]) x hx with h | h
      · rcases List.mem_append.mp h with h2 | h2
        · exact Or.inl h2
        · simp only [List.mem_singleton] at h2
          subst h2
          exact Or.inr (List.mem_cons_self _ _)
      · exact Or.inr (List.mem_cons_of_mem _ h)

theorem isDuplicate_eq_false {kept : List PBMarker} {c : PBMarker}
    (h : isDuplicate kept c = false) : ∀ m ∈ kept, ¬ withinNMS c m := by
  intro m hm
  simp only [isDuplicate, List.any_eq_false, decide_eq_true_eq] at h
  exact h m hm

theorem isDuplicate_eq_true {kept : List PBMarker} {c : PBMarker}
    (h : isDuplicate kept c = true) : ∃ m ∈ kept, withinNMS c m := by
  simp only [isDuplicate, List.any_eq_true, decide_eq_true_eq] at h
  exact h

theorem nmsPass_pairwise :
    ∀ (cs kept : List PBMarker),
      List.Pairwise (fun a b => ¬ withinNMS b a) kept →
      List.Pairwise (fun a b => ¬ withinNMS b a) (nmsPass kept cs) := by
  intro cs
  induction cs with
  | nil =>
    intro kept h
    simpa [nmsPass] using h
  | cons c cs ih =>
    intro kept h
    simp only [nmsPass]
    split
    · exact ih kept h
    · rename_i hdup
      refine ih (kept ++ [c]) ?_
      rw [List.pairwise_append]
      refine ⟨h, by simp, ?_⟩
      intro a ha b hb
      simp only [List.mem_singleton] at hb
      subst hb
      exact isDuplicate_eq_false (by simpa using hdup) a ha

theorem nmsPass_complete :
    ∀ (cs kept : List PBMarker) (c : PBMarker), c ∈ cs →
      c ∈ nmsPass kept cs ∨ ∃ m ∈ nmsPass kept cs, withinNMS c m := by
  intro cs
  induction cs with
  | nil =>
    intro kept c hc
    simp at hc
  | cons c' cs ih =>
    intro kept c hc
    simp only [nmsPass]
    rcases List.mem_cons.mp hc with h | h
    · subst h
      split
      · rename_i hdup
        obtain ⟨m, hm, hw⟩ := isDuplicate_eq_true hdup
        exact Or.inr ⟨m, nmsPass_kept_subset cs kept hm, hw⟩
      · exact Or.inl (nmsPass_kept_subset cs (kept ++ [c]) (by simp))
    · split
      · exact ih kept c h
      · exact ih (kept ++ [c']) c h

/-- Every collected candidate clears the `0.75` threshold. -/
theorem collectPBCandidates_conf (result : List (List ℚ)) :
    ∀ m ∈ collectPBCandidates result, pbThreshold ≤ m.confidence := by
  intro m hm
  simp only [collectPBCandidates, List.mem_flatten, List.mem_map] at hm
  obtain ⟨rowl, ⟨yr, hyr, rfl⟩, hm2⟩ := hm
  simp only [List.mem_filterMap] at hm2
  obtain ⟨xc, hxc, hsome⟩ := hm2
  split at hsome
  · cases hsome
    assumption
  · exact absurd hsome (by simp)

/-- Claim C7: `findPBMarkers` returns exactly the candidate positions
with correlation at least `0.75`, filtered by non-maximum suppression —
every returned marker is an above-threshold candidate, no two returned
markers are within 30 px in both coordinates, every above-threshold
candidate is either returned or within 30 px (in both coordinates) of a
returned marker, and the returned markers are sorted by `y` ascending. -/
theorem c7_findPBMarkers (result : List (List ℚ)) :
    (∀ m ∈ findPBMarkers result,
      m ∈ collectPBCandidates result ∧ pbThreshold ≤ m.confidence) ∧
    List.Pairwise (fun a b => ¬ withinNMS a b) (findPBMarkers result) ∧
    (∀ c ∈ collectPBCandidates result,
      c ∈ findPBMarkers result ∨ ∃ m ∈ findPBMarkers result, withinNMS c m) ∧
    List.Sorted (fun a b : PBMarker => a.y ≤ b.y) (findPBMarkers result) := by
  have hperm1 : (sortByConfDesc (collectPBCandidates result)).Perm
      (collectPBCandidates result) := List.perm_insertionSort _ _
  have hpermF : (findPBMarkers result).Perm
      (nmsPass [] (sortByConfDesc (collectPBCandidates result))) := by
    unfold findPBMarkers sortPBByY
    exact List.perm_insertionSort _ _
  refine ⟨?_, ?_, ?_, ?_⟩
  · intro m hm
    have hm2 := hpermF.mem_iff.mp hm
    rcases nmsPass_mem _ _ _ hm2 with h | h
    · exact absurd h (by simp)
    · have hc := hperm1.mem_iff.mp h
      exact ⟨hc, collectPBCandidates_conf result m hc⟩
  · have hp := nmsPass_pairwise (sortByConfDesc (collectPBCandidates result)) []
      List.Pairwise.nil
    have hp2 := hp.perm hpermF.symm
      (fun hxy hw => hxy (withinNMS_symm hw))
    exact hp2.imp (fun hxy hw => hxy (withinNMS_symm hw))
  · intro c hc
    have hc2 : c ∈ sortByConfDesc (collectPBCandidates result) :=
      hperm1.mem_iff.mpr hc
    rcases nmsPass_complete _ [] c hc2 with h | ⟨m, hm, hw⟩
    · exact Or.inl (hpermF.mem_iff.mpr h)
    · exact Or.inr ⟨m, hpermF.mem_iff.mpr hm, hw⟩
  · unfold findPBMarkers sortPBByY
    exact List.sorted_insertionSort _ _

/-- Claim C7, witness: on the one-row correlation matrix
`[[1, 0, 4/5]]` the detector keeps the confidence-1 candidate at `x = 0`
and suppresses the candidate at `x = 2` (within 30 px of it); the main
theorem's completeness conjunct exhibits the suppressing marker. -/
theorem c7_witness :
    (⟨2, 0, mkRat 4 5⟩ : PBMarker) ∈ findPBMarkers [[1, 0, mkRat 4 5]] ∨
      ∃ m ∈ findPBMarkers [[1, 0, mkRat 4 5]],
        withinNMS ⟨2, 0, mkRat 4 5⟩ m :=
  (c7_findPBMarkers [[1, 0, mkRat 4 5]]).2.2.1 ⟨2, 0, mkRat 4 5⟩ (by decide)

/-- Claim C8: the fallback extractor maps `"07 14 22 45 61 MB 09"` (via
the `MB → PB` repair) and `"0714224561PB09"` (via the inserted space and
the four-or-more-digit split) to the single play with white balls
`{7, 14, 22, 45, 61}` and powerball `9`. -/
theorem c8_substitution_scenarios :
    extractNumbersFromOCR "07 14 22 45 61 MB 09" =
      [{ white := [7, 14, 22, 45, 61], powerball := 9 }] ∧
    extractNumbersFromOCR "0714224561PB09" =
      [{ white := [7, 14, 22, 45, 61], powerball := 9 }] := by
  constructor <;> decide

/-- Claim C9: both extraction paths are deterministic — two invocations
on the same input yield equal play lists (the embedded pipeline is a pure
function of its input). -/
theorem c9_deterministic :
    (∀ o : VisionOracle,
      extractNumbersTemplateMatchingM o = extractNumbersTemplateMatchingM o) ∧
    (∀ t : String, extractNumbersFromOCR t = extractNumbersFromOCR t) :=
  ⟨fun _ => rfl, fun _ => rfl⟩

/-- Claim C1, counterexample: `extractPlaysFromRows` validates plays
without any distinctness check, so a row whose ten white-side digits read
`11 11 22 33 44` is emitted as a play with a repeated white ball,
refuting "the white entries are pairwise distinct" for the template path. -/
theorem c1_counterexample :
    extractPlaysFromRows
      [[⟨0, 0, 1, 1⟩, ⟨10, 0, 1, 1⟩, ⟨120, 0, 1, 1⟩, ⟨130, 0, 1, 1⟩,
        ⟨240, 0, 2, 1⟩, ⟨250, 0, 2, 1⟩, ⟨360, 0, 3, 1⟩, ⟨370, 0, 3, 1⟩,
        ⟨480, 0, 4, 1⟩, ⟨490, 0, 4, 1⟩, ⟨700, 0, 0, 1⟩, ⟨710, 0, 9, 1⟩]]
      [⟨600, 0, 1⟩] 90 88 =
      [{ white := [11, 11, 22, 33, 44], powerball := 9 }] ∧
    ¬ ([11, 11, 22, 33, 44] : List Nat).Nodup := by
  constructor
  · decide
  · decide

/-- Claim C3, counterexample: on the line
`"05 10 20 30 40 50 PB 05 60"` the powerball value `5` also occurs at
position 0 of the valid-numbers list `[5,10,20,30,40,50,5,60]`.
`indexOf` pivots on that first occurrence (by value), so the emitted
white balls are `{5,20,30,40,50}` — not the five numbers positionally
preceding the `PB`-anchored powerball, which would be
`{10,20,30,40,50}`. -/
theorem c3_counterexample :
    extractNumbersFromOCR "05 10 20 30 40 50 PB 05 60" =
      [{ white := [5, 20, 30, 40, 50], powerball := 5 }] ∧
    ({ white := [5, 20, 30, 40, 50], powerball := 5 } : Play).white ≠
      sortNatAsc [10, 20, 30, 40, 50] := by
  constructor
  · decide
  · decide

/-- Claim C4, counterexample: (i) ten white-side digits spaced 200 px
apart reconstruct to ten single-digit numbers, not five two-digit
numbers; (ii) a row with only nine white-side digits (four close pairs
and one lone digit) still emits a play, refuting "fewer than ten
white-side digits emit no play". -/
theorem c4_counterexample :
    (reconstructTwoDigitNumbers
      [⟨0, 0, 1, 1⟩, ⟨200, 0, 2, 1⟩, ⟨400, 0, 3, 1⟩, ⟨600, 0, 4, 1⟩,
       ⟨800, 0, 5, 1⟩, ⟨1000, 0, 6, 1⟩, ⟨1200, 0, 7, 1⟩, ⟨1400, 0, 8, 1⟩,
       ⟨1600, 0, 9, 1⟩, ⟨1800, 0, 1, 1⟩]).length = 10 ∧
    extractPlaysFromRows
      [[⟨0, 0, 1, 1⟩, ⟨10, 0, 2, 1⟩, ⟨120, 0, 3, 1⟩, ⟨130, 0, 4, 1⟩,
        ⟨240, 0, 5, 1⟩, ⟨250, 0, 6, 1⟩, ⟨360, 0, 6, 1⟩, ⟨370, 0, 7, 1⟩,
        ⟨480, 0, 8, 1⟩, ⟨700, 0, 0, 1⟩, ⟨710, 0, 9, 1⟩]]
      [⟨500, 0, 1⟩] 90 88 =
      [{ white := [8, 12, 34, 56, 67], powerball := 9 }] := by
  constructor
  · decide
  · decide

/-- Claim C2, counterexample: with no QR found (`qrFound = false`) the
template-matching path does not stop — it runs digit extraction on the
full normalized image and here produces a play, and the dispatcher then
returns that play without invoking the textual fallback (an empty OCR
text would otherwise force an empty result). -/
theorem c2_counterexample :
    c2Oracle.qrFound = false ∧
    extractNumbersTemplateMatchingM c2Oracle =
      [{ white := [7, 14, 22, 45, 61], powerball := 9 }] ∧
    processTicketM true c2Oracle "" =
      [{ white := [7, 14, 22, 45, 61], powerball := 9 }] := by
  refine ⟨rfl, ?_, ?_⟩
  · decide
  · decide

end Powerball
